/-
Verification of the timed media composition pipeline of this repository.

Times are modelled as exact rationals (ℚ): the Python sources compute with
floats, but every claim under study is about the real-number arithmetic the
code expresses (0.3 * T, max 0 (a - b), partial sums), so the shallow
embedding uses ℚ throughout.  Randomness (random.choice / random.sample) is
modelled by passing the drawn positions in explicitly: a draw picks index
`r % pool.length`, so ranging over `r` ranges over every outcome the library
call can produce.  External process calls (ffmpeg/ffprobe) are out of scope;
the embedding covers the argument/filter-graph construction and the
validation logic around them, which is what the claims are about.

Each definition carries a comment naming the source function it embeds.
-/
import Mathlib

namespace VideoSynthesis

/-! ## Definitions -/

/-! ### Segment windower
(src/video_synthesis/core/deepseek1.py, `SubtitleAnalyzer._perform_analysis`) -/

/-- Membership in a half-open window `[w.1, w.2)`; the assignment loop in
`_perform_analysis` tests `range_start <= start < range_end`. -/
def ivMem (w : ℚ × ℚ) (x : ℚ) : Prop := w.1 ≤ x ∧ x < w.2

instance (w : ℚ × ℚ) (x : ℚ) : Decidable (ivMem w x) := by
  unfold ivMem; infer_instance

/-- The six `time_ranges` computed by `_perform_analysis` for a total
duration `T` (`total_duration`):
`segment_1 = (7, 15)`, `segment_2 = (15, T*0.3)`, `segment_3 = (T*0.3, T*0.5)`,
`segment_4 = (T*0.5, T*0.7)`, `segment_5 = (T*0.7, T*0.85)`,
`segment_6 = (T*0.85, T - 7)`. -/
def timeRanges (T : ℚ) : List (ℚ × ℚ) :=
  [ (7, 15)
  , (15, T * (3/10))
  , (T * (3/10), T * (1/2))
  , (T * (1/2), T * (7/10))
  , (T * (7/10), T * (17/20))
  , (T * (17/20), T - 7) ]

/-- Pairwise disjointness of a list of half-open windows, point-wise, as the
spec states it ("windows are disjoint"). -/
def windowsDisjoint (ws : List (ℚ × ℚ)) : Prop :=
  ws.Pairwise (fun a b => ∀ x : ℚ, ¬ (ivMem a x ∧ ivMem b x))

/-- First index of a window containing `s`, mirroring the assignment loop in
`_perform_analysis`: the loop scans `time_ranges` in order and `break`s at the
first window with `range_start <= start < range_end`; a subtitle matching no
window is appended to no segment. -/
def firstMatchIdx (s : ℚ) : List (ℚ × ℚ) → Option ℕ
  | [] => none
  | w :: ws =>
    if ivMem w s then some 0
    else (firstMatchIdx s ws).map (· + 1)

/-- Window assignment of a subtitle whose start time is `s`, for a transcript
of total duration `T`: 0-based index of the segment the loop appends the
subtitle to, or `none` when the loop matches no window. -/
def assignSegment (T s : ℚ) : Option ℕ :=
  firstMatchIdx s (timeRanges T)

/-- One parsed transcript line, with its times already converted to seconds
(the source converts `"HH:MM:SS,mmm"` strings with `time_to_seconds` before
any comparison). -/
structure TimedLine where
  startTime : ℚ
  endTime : ℚ
deriving Repr, DecidableEq

/-- Source: `total_duration = max(time_to_seconds(s["end_time"]) for s in subtitles)`;
Python's `max` of an empty sequence raises, hence `Option`. -/
def totalDuration (subs : List TimedLine) : Option ℚ :=
  (subs.map TimedLine.endTime).max?

/-! ### Duration reconciler
(src/备份/8-英文是黄色/video_synthesis/core/video_clipper.py,
`VideoClipper._clip_video` and `VideoClipper._create_complete_version`) -/

/-- Source: `freeze_duration = max(0, audio_duration - video_duration)` where
`video_duration = end_time - start_time`. -/
def freeze_duration (audioDuration videoDuration : ℚ) : ℚ :=
  max 0 (audioDuration - videoDuration)

/-- One piece of the assembled output video: either real segment frames
(`ffmpeg -ss start -t video_duration` on the source) or the blurred
freeze-frame still rendered by `_create_blurred_freeze_video`. -/
inductive SegPiece where
  | footage (d : ℚ)
  | frozen (d : ℚ)
deriving Repr, DecidableEq

def SegPiece.dur : SegPiece → ℚ
  | footage d => d
  | frozen d => d

/-- The hybrid plan built by `_create_complete_version`: clip the raw segment
of length `videoDuration`; if `freeze_duration > 0`, append a blurred frozen
hold of that length (steps 5–7 of the source, the concat list
`[temp_video, blur_video]`); otherwise use only the raw segment. -/
def completePlan (audioDuration videoDuration : ℚ) : List SegPiece :=
  if 0 < freeze_duration audioDuration videoDuration then
    [SegPiece.footage videoDuration,
     SegPiece.frozen (freeze_duration audioDuration videoDuration)]
  else
    [SegPiece.footage videoDuration]

def planDuration (ps : List SegPiece) : ℚ := (ps.map SegPiece.dur).sum

/-! ### Caption track compositor
(src/video_synthesis/core/video_combiner.py, `merge_subtitles`) -/

/-- The three dialogue layers written per caption block: the Chinese text
line, the English background box, and the English text line (in the order
`merge_subtitles` writes them). -/
inductive CapLayer where
  | cn
  | enBox
  | en
deriving Repr, DecidableEq

/-- One `Dialogue:` event of the generated ASS file, with its times as
seconds.  `hidden = true` for the `*_Hidden` transparent styles. -/
structure SubEvent where
  layer : CapLayer
  hidden : Bool
  start : ℚ
  stop : ℚ
deriving Repr, DecidableEq

/-- The style-switch threshold: the source compares `start_seconds < 4`,
`end_seconds > 4` and hard-codes the event boundary string `"0:00:04.00"`. -/
def styleThreshold : ℚ := 4

/-- The three hidden-style dialogue lines written for a block
(`CN_Hidden`, then `write_subtitle_with_box` with `is_hidden=True`:
`EN_BOX_Hidden`, `EN_Hidden`). -/
def hiddenTriple (s e : ℚ) : List SubEvent :=
  [⟨CapLayer.cn, true, s, e⟩, ⟨CapLayer.enBox, true, s, e⟩, ⟨CapLayer.en, true, s, e⟩]

/-- The three opaque-style dialogue lines written for a block
(`CN`, then `EN_BOX`, `EN`). -/
def normalTriple (s e : ℚ) : List SubEvent :=
  [⟨CapLayer.cn, false, s, e⟩, ⟨CapLayer.enBox, false, s, e⟩, ⟨CapLayer.en, false, s, e⟩]

/-- Dialogue events `merge_subtitles` emits for one caption block with start
time `s` and end time `e` (seconds): if `s < 4`, hidden-style events from `s`
to the literal `"0:00:04.00"`, plus, when `e > 4`, opaque-style events from 4
to `e`; otherwise opaque-style events from `s` to `e`. -/
def captionEvents (s e : ℚ) : List SubEvent :=
  if s < styleThreshold then
    hiddenTriple s styleThreshold ++
      (if styleThreshold < e then normalTriple styleThreshold e else [])
  else
    normalTriple s e

/-! ### Side-sequence generator
(src/video_synthesis/core/video_processor.py, `generate_pip2_sequence` and
its inner `generate_one_round`) -/

/-- One decorative folder of the pip2 pool: its path name, whether its two
clips `1.mp4` / `2.mp4` exist on disk, and their probed durations. -/
structure Folder where
  name : String
  has1 : Bool
  has2 : Bool
  dur1 : ℚ
  dur2 : ℚ
deriving Repr, DecidableEq

instance : Inhabited Folder := ⟨⟨"", false, false, 0, 0⟩⟩

/-- A clip emitted into the sequence: a folder's lead clip `1.mp4` or follow
clip `2.mp4`. -/
inductive Clip where
  | lead (f : Folder)
  | follow (f : Folder)
deriving Repr, DecidableEq

def Clip.folderName : Clip → String
  | lead f => f.name
  | follow f => f.name

/-- Probed duration of the clip (`get_video_duration`). -/
def Clip.dur : Clip → ℚ
  | lead f => f.dur1
  | follow f => f.dur2

/-- One random draw from a pool: `random.choice` / one step of
`random.sample` picks some element; the drawn position is `r % length`. -/
def pickD (l : List Folder) (r : ℕ) : Folder :=
  (l[r % l.length]?).getD default

/-- First tier of `generate_one_round`: `if available_folders:` draw one
folder and remove it from the available list. -/
def drawOne (avail : List Folder) (r : ℕ) : Option (Folder × List Folder) :=
  match avail[r % avail.length]? with
  | none => none
  | some f => some (f, avail.erase f)

/-- Second tier: `if len(available_folders) >= 2: random.sample(..., 2)`,
then both drawn folders are removed. -/
def draw2 (avail : List Folder) (ra rb : ℕ) : List Folder × List Folder :=
  if 2 ≤ avail.length then
    let f := pickD avail ra
    let m := avail.erase f
    let g := pickD m rb
    ([f, g], m.erase g)
  else ([], avail)

/-- Third tier: `if len(available_folders) >= 3: random.sample(..., 3)`
(the source skips the final `remove` calls as the list is dead afterwards;
the leftover pool is still returned here for stating invariants). -/
def draw3 (avail : List Folder) (ra rb rc : ℕ) : List Folder × List Folder :=
  if 3 ≤ avail.length then
    let f := pickD avail ra
    let m := avail.erase f
    let g := pickD m rb
    let m2 := m.erase g
    let h := pickD m2 rc
    ([f, g, h], m2.erase h)
  else ([], avail)

/-- Tier-1 selection: the single chosen folder (or nothing on an empty
pool), with the remaining pool. -/
def roundSel1 (folders : List Folder) (r1 : ℕ) : List Folder × List Folder :=
  match drawOne folders r1 with
  | none => ([], folders)
  | some (f, rest) => ([f], rest)

/-- The three tier selections of one round, drawn in source order. -/
def roundSels (folders : List Folder) (r1 r2 r3 r4 r5 r6 : ℕ) :
    List Folder × List Folder × List Folder :=
  let s1 := roundSel1 folders r1
  let s2 := draw2 s1.2 r2 r3
  let s3 := draw3 s2.2 r4 r5 r6
  (s1.1, s2.1, s3.1)

/-- Tier-1 clips: both `1.mp4` and `2.mp4` must exist, else the folder
contributes nothing (`if os.path.exists(video1) and os.path.exists(video2)`). -/
def groupOneClips : List Folder → List Clip
  | [f] => if f.has1 && f.has2 then [Clip.lead f, Clip.follow f] else []
  | _ => []

/-- Tier-2/3 clips: all existing `1.mp4` leads in draw order, then all
existing `2.mp4` follows in the same order. -/
def groupClips (sel : List Folder) : List Clip :=
  (sel.filter (·.has1)).map Clip.lead ++ (sel.filter (·.has2)).map Clip.follow

/-- The body of `generate_one_round`: tier-1 clips, then tier-2 clips, then tier-3
clips. -/
def generateOneRound (folders : List Folder) (r1 r2 r3 r4 r5 r6 : ℕ) : List Clip :=
  let s := roundSels folders r1 r2 r3 r4 r5 r6
  groupOneClips s.1 ++ groupClips s.2.1 ++ groupClips s.2.2

/-- Cumulative probed duration of a clip list
(`sum(get_video_duration(v) for v in ...)`). -/
def sumDur (cs : List Clip) : ℚ := (cs.map Clip.dur).sum

/-- Round `i` of the generated sequence; each round re-randomizes (consumes
six fresh draws) but starts again from the full folder pool. -/
def roundAt (folders : List Folder) (entropy : ℕ → ℕ) (i : ℕ) : List Clip :=
  generateOneRound folders (entropy (6*i)) (entropy (6*i+1)) (entropy (6*i+2))
    (entropy (6*i+3)) (entropy (6*i+4)) (entropy (6*i+5))

/-- Source: `needed_rounds = int(target_duration / one_round_duration) + 1`; for
the nonnegative quotients that reach this line Python's `int` truncation is
the floor. -/
def neededRounds (folders : List Folder) (entropy : ℕ → ℕ) (target : ℚ) : ℕ :=
  (⌊target / sumDur (roundAt folders entropy 0)⌋).toNat + 1

/-- The body of `generate_pip2_sequence`: hard error on an empty pool (`raise
Exception`), Python `ZeroDivisionError` when the first round measures zero
duration; otherwise the first round followed by `needed_rounds - 1` further
randomized rounds. -/
def generate_pip2_sequence (folders : List Folder) (entropy : ℕ → ℕ)
    (target : ℚ) : Option (List Clip) :=
  if folders.isEmpty then none
  else if sumDur (roundAt folders entropy 0) = 0 then none
  else some (((List.range (neededRounds folders entropy target)).map
    (roundAt folders entropy)).flatten)

/-- Concrete pool used to evaluate the generator: one long-clip folder and
six short-clip folders, all with both clips present. -/
def cPool : List Folder :=
  [ ⟨"B", true, true, 100, 100⟩
  , ⟨"S1", true, true, 1, 1⟩
  , ⟨"S2", true, true, 1, 1⟩
  , ⟨"S3", true, true, 1, 1⟩
  , ⟨"S4", true, true, 1, 1⟩
  , ⟨"S5", true, true, 1, 1⟩
  , ⟨"S6", true, true, 1, 1⟩ ]

/-- Concrete draw positions: round 0 draws position 0 everywhere (so it
includes folder `B`), later rounds draw position 1 everywhere (so they skip
`B` and use only the six short folders). -/
def cEntropy : ℕ → ℕ := fun i => if i < 6 then 0 else 1

/-- Small one-folder pool for evaluating the generator's contract. -/
def wPool : List Folder := [⟨"A", true, true, 1, 1⟩]

def wEntropy : ℕ → ℕ := fun _ => 0

/-! ### Timeline compositor: side-clip enable windows
(src/video_synthesis/core/video_combiner.py, `combine_videos`) -/

/-- The per-clip `enable='between(t,current_time,current_time+duration)'`
windows: `current_time` starts at 0 and advances by each clip's duration in
input order. -/
def sideWindowsFrom (t : ℚ) : List ℚ → List (ℚ × ℚ)
  | [] => []
  | d :: ds => (t, t + d) :: sideWindowsFrom (t + d) ds

def sideEnableWindows (ds : List ℚ) : List (ℚ × ℚ) :=
  sideWindowsFrom 0 ds

/-! ### Audio track assembler
(src/video_synthesis/core/video_clipper.py, `VideoClipper._merge_audio_files`) -/

/-- One audio file as the validation sees it: its path, whether
`os.path.exists` holds, and its `os.path.getsize` byte size. -/
structure AudioFile where
  path : String
  onDisk : Bool
  size : ℕ
deriving Repr, DecidableEq

/-- Source: `audio_sequence = ['en', 'zh']  # 只使用英文和中文`. -/
def audio_sequence : List String := ["en", "zh"]

/-- Validation of one required role: missing from the dict, not on disk, or
a zero-byte file each abort the merge (`return False`). -/
def validateRole (paths : List (String × AudioFile)) (role : String) :
    Option AudioFile :=
  match paths.lookup role with
  | none => none
  | some f => if !f.onDisk then none else if f.size = 0 then none else some f

/-- The `for audio_type in audio_sequence` validation loop: builds
`audio_files` in role order, aborting on the first invalid role. -/
def collectRoles (paths : List (String × AudioFile)) :
    List String → Option (List AudioFile)
  | [] => some []
  | role :: rest =>
    match validateRole paths role, collectRoles paths rest with
    | some f, some fs => some (f :: fs)
    | _, _ => none

/-- The validation phase of `_merge_audio_files` up to the external ffmpeg call: on success, the
ordered input file list handed to `-i .. -i ..` and the `concat` filter
(`[0:a][1:a]concat=n=2`), i.e. the `en` file then the `zh` file. -/
def merge_audio_files (paths : List (String × AudioFile)) :
    Option (List String) :=
  (collectRoles paths audio_sequence).map (List.map AudioFile.path)

/-! ### Shared Python string primitives -/

/-- Python `str.split(sep)` for a one-character separator (keeps empty
parts; `"".split(sep) == ['']`). -/
def splitOnChar (sep : Char) : List Char → List (List Char)
  | [] => [[]]
  | c :: cs =>
    let r := splitOnChar sep cs
    if c = sep then [] :: r
    else
      match r with
      | [] => [[c]]
      | h :: t => (c :: h) :: t

/-- The ASCII whitespace Python's numeric constructors strip. -/
def isPySpace (c : Char) : Bool :=
  c == ' ' || c == '\t' || c == '\n' || c == '\r' || c == '\x0b' || c == '\x0c'

def pyStripChars (l : List Char) : List Char :=
  ((l.dropWhile isPySpace).reverse.dropWhile isPySpace).reverse

def digitVal (c : Char) : ℕ := c.toNat - 48

/-- Digit run of a Python base-10 integer literal after its first digit:
single underscores are allowed between digits only. -/
def digitsVal : List Char → ℕ → Option ℕ
  | [], acc => some acc
  | c :: rest, acc =>
    if c = '_' then
      match rest with
      | [] => none
      | c2 :: rest2 =>
        if c2.isDigit then digitsVal rest2 (acc * 10 + digitVal c2) else none
    else if c.isDigit then digitsVal rest (acc * 10 + digitVal c) else none

/-- A nonempty digit run, starting with a digit. -/
def digitsFirst : List Char → Option ℕ
  | [] => none
  | c :: rest => if c.isDigit then digitsVal rest (digitVal c) else none

/-- Python `int(s)` on base-10 string literals: optional surrounding
whitespace, optional sign, digits (with single grouping underscores);
anything else raises, i.e. `none`. -/
def pyIntOfChars (l : List Char) : Option ℤ :=
  match pyStripChars l with
  | [] => none
  | c :: rest =>
    if c = '+' then (digitsFirst rest).map (fun n => (n : ℤ))
    else if c = '-' then (digitsFirst rest).map (fun n => -(n : ℤ))
    else (digitsFirst (c :: rest)).map (fun n => (n : ℤ))

def natValOfDigits (l : List Char) : ℕ :=
  l.foldl (fun a c => a * 10 + digitVal c) 0

/-- Unsigned decimal part of Python `float(s)`: `digits`, `digits.`,
`digits.digits` or `.digits` (the exponent/inf/nan forms never occur in the
timestamp strings this parser receives). -/
def pyFloatCore (l : List Char) : Option ℚ :=
  let ip := l.takeWhile Char.isDigit
  let rest := l.dropWhile Char.isDigit
  match rest with
  | [] => if ip.isEmpty then none else some (natValOfDigits ip)
  | c :: fp =>
    if c = '.' then
      if fp.all Char.isDigit && !(ip.isEmpty && fp.isEmpty) then
        some ((natValOfDigits ip : ℚ) + (natValOfDigits fp : ℚ) / (10 ^ fp.length : ℚ))
      else none
    else none

/-- Python `float(s)` on plain decimal literals. -/
def pyFloatOfChars (l : List Char) : Option ℚ :=
  match pyStripChars l with
  | [] => none
  | c :: rest =>
    if c = '+' then pyFloatCore rest
    else if c = '-' then (pyFloatCore rest).map Neg.neg
    else pyFloatCore (c :: rest)

/-! ### Clip-composer timestamp parsing
(src/video_synthesis/core/video_clipper.py, `VideoClipper._parse_timestamp`) -/

/-- The decomposition `_parse_timestamp` attempts inside its `try`:
`main_part, ms_part = timestamp.split(',')`, `h, m, s = main_part.split(':')`,
then `int(...)` on each field; `none` models the caught exception. -/
def parsePartsChars (l : List Char) : Option (ℤ × ℤ × ℤ × ℤ) :=
  match splitOnChar ',' l with
  | [mainPart, msPart] =>
    match splitOnChar ':' mainPart with
    | [h, m, s] =>
      match pyIntOfChars h, pyIntOfChars m, pyIntOfChars s, pyIntOfChars msPart with
      | some hv, some mv, some sv, some msv => some (hv, mv, sv, msv)
      | _, _, _, _ => none
    | _ => none
  | _ => none

def parseParts (ts : String) : Option (ℤ × ℤ × ℤ × ℤ) :=
  parsePartsChars ts.toList

/-- The parser `VideoClipper._parse_timestamp`: total; any exception in the
decomposition is caught and `0.0` returned. -/
def parse_timestamp (ts : String) : ℚ :=
  match parseParts ts with
  | some (h, m, s, ms) => (h : ℚ) * 3600 + (m : ℚ) * 60 + (s : ℚ) + (ms : ℚ) / 1000
  | none => 0

/-- Modelled from the claim's words, for comparison only: the strict
`HH:MM:SS,mmm` shape (two digits, colon, two digits, colon, two digits,
comma, three digits). -/
def wellFormedTimestamp (s : String) : Bool :=
  match s.toList with
  | [h1, h2, c1, m1, m2, c2, s1, s2, c3, d1, d2, d3] =>
    c1 == ':' && c2 == ':' && c3 == ',' &&
    h1.isDigit && h2.isDigit && m1.isDigit && m2.isDigit &&
    s1.isDigit && s2.isDigit && d1.isDigit && d2.isDigit && d3.isDigit
  | _ => false

/-! ### Timestamp verification
(src/video_synthesis/core/deepseek1.py, `SubtitleAnalyzer.verify_timestamp`) -/

/-- One subtitle as `read_srt_file` returns it (times still strings). -/
structure SrtLine where
  text : String
  start_time : String
  end_time : String
deriving Repr, DecidableEq

/-- Value stored in `segment_map`. -/
structure TimeInfo where
  start_time : String
  end_time : String
  full_text : String
deriving Repr, DecidableEq

/-- One analysis item; optional fields model dict keys the verification step
may add (`verified`, timing, `original_subtitle`, `error`). -/
structure AnalysisItem where
  text : String
  segment : String
  verified : Option Bool := none
  start_time : Option String := none
  end_time : Option String := none
  original_subtitle : Option String := none
  error : Option String := none
deriving Repr, DecidableEq

/-- The three category lists of an analysis result. -/
structure AnalysisResult where
  vocabulary : List AnalysisItem
  phrases : List AnalysisItem
  expressions : List AnalysisItem
deriving Repr, DecidableEq

/-- Python `str.lower()` (the transcripts are ASCII; per-character
lowercasing). -/
def strLower (s : String) : String := String.mk (s.toList.map Char.toLower)

/-- Occurrence of `needle` as a contiguous sublist of `hay`. -/
def listIsInfix (needle : List Char) : List Char → Bool
  | [] => needle.isEmpty
  | c :: rest => needle.isPrefixOf (c :: rest) || listIsInfix needle rest

/-- Python `needle in hay` on strings. -/
def pyContains (needle hay : String) : Bool :=
  listIsInfix needle.toList hay.toList

/-- Insertion into a Python dict: an existing key keeps its position and gets
the new value, a new key is appended. -/
def dictInsert (m : List (String × TimeInfo)) (k : String) (v : TimeInfo) :
    List (String × TimeInfo) :=
  match m with
  | [] => [(k, v)]
  | (k', v') :: rest =>
    if k' = k then (k, v) :: rest else (k', v') :: dictInsert rest k v

/-- Source: `segment_map[subtitle["text"].lower()] = {...}` over all subtitles. -/
def buildSegmentMap (subs : List SrtLine) : List (String × TimeInfo) :=
  subs.foldl
    (fun m sub => dictInsert m (strLower sub.text) ⟨sub.start_time, sub.end_time, sub.text⟩)
    []

/-- The inner `is_within_7_15_seconds`: splits `"H:M:S,ms"` with `float`
fields and tests `7.0 <= total_seconds <= 15.0`; a malformed time raises
(`none`). -/
def is_within_7_15_seconds (time_str : String) : Option Bool :=
  match splitOnChar ':' time_str.toList with
  | [h, m, s0] =>
    match splitOnChar ',' s0 with
    | [s, ms] =>
      match pyFloatOfChars h, pyFloatOfChars m, pyFloatOfChars s, pyFloatOfChars ms with
      | some hv, some mv, some sv, some msv =>
        let total := hv * 3600 + mv * 60 + sv + msv / 1000
        some (decide (7 ≤ total ∧ total ≤ 15))
      | _, _, _, _ => none
    | _ => none
  | _ => none

/-- Verification of one item: first `segment_map` entry whose subtitle text
contains the item text supplies the timing and `verified=True`; no match
sets `verified=False` with an explanation; a `segment_1` item whose matched
start time is outside 7–15s is demoted to `verified=False` with an
explanation.  `none` models the exception raised by a malformed matched
start time. -/
def verifyItem (smap : List (String × TimeInfo)) (item : AnalysisItem) :
    Option AnalysisItem :=
  match smap.find? (fun kv => pyContains (strLower item.text) kv.1) with
  | some kv =>
    let item1 : AnalysisItem :=
      { item with verified := some true
                , start_time := some kv.2.start_time
                , end_time := some kv.2.end_time
                , original_subtitle := some kv.2.full_text }
    if item.segment = "segment_1" then
      match is_within_7_15_seconds kv.2.start_time with
      | none => none
      | some b =>
        if b then some item1
        else some { item1 with verified := some false
                             , error := some "第一段内容必须在7-15秒范围内" }
    else some item1
  | none =>
    some { item with verified := some false, error := some "未找到匹配的字幕文本" }

/-- One category's loop, aborted by any raised exception. -/
def verifyCategory (smap : List (String × TimeInfo)) :
    List AnalysisItem → Option (List AnalysisItem)
  | [] => some []
  | item :: rest =>
    match verifyItem smap item, verifyCategory smap rest with
    | some it, some rs => some (it :: rs)
    | _, _ => none

/-- The function `SubtitleAnalyzer.verify_timestamp` (deepseek1 variant): builds
`segment_map` from the subtitles and verifies the three category lists in
place. -/
def verify_timestamp (subs : List SrtLine) (analysis : AnalysisResult) :
    Option AnalysisResult :=
  let smap := buildSegmentMap subs
  match verifyCategory smap analysis.vocabulary,
        verifyCategory smap analysis.phrases,
        verifyCategory smap analysis.expressions with
  | some v, some p, some e => some ⟨v, p, e⟩
  | _, _, _ => none

/-- Concrete transcript and analysis used to evaluate the verification
step. -/
def wSubs : List SrtLine := [⟨"hello world", "00:00:08,000", "00:00:09,000"⟩]

def wAnalysis : AnalysisResult :=
  ⟨[{ text := "hello", segment := "segment_2" }],
   [{ text := "zzz", segment := "segment_3" }], []⟩

def wResult : AnalysisResult :=
  ⟨[{ text := "hello", segment := "segment_2", verified := some true
    , start_time := some "00:00:08,000", end_time := some "00:00:09,000"
    , original_subtitle := some "hello world" }],
   [{ text := "zzz", segment := "segment_3", verified := some false
    , error := some "未找到匹配的字幕文本" }], []⟩

/-! ## Theorems -/

/-! ### Generic facts about the first-match scan -/

theorem firstMatchIdx_isSome_of_mem {s : ℚ} {ws : List (ℚ × ℚ)}
    (h : ∃ w ∈ ws, ivMem w s) : (firstMatchIdx s ws).isSome = true := by
  induction ws with
  | nil => rcases h with ⟨w, hw, _⟩; cases hw
  | cons w ws ih =>
    by_cases hw : ivMem w s
    · simp [firstMatchIdx, hw]
    · rcases h with ⟨v, hv, hvs⟩
      rcases List.mem_cons.mp hv with rfl | hv'
      · exact absurd hvs hw
      · have := ih ⟨v, hv', hvs⟩
        rcases hfm : firstMatchIdx s ws with _ | k
        · rw [hfm] at this; cases this
        · simp [firstMatchIdx, hw, hfm]

theorem firstMatchIdx_eq_none_of_forall {s : ℚ} {ws : List (ℚ × ℚ)}
    (h : ∀ w ∈ ws, ¬ ivMem w s) : firstMatchIdx s ws = none := by
  induction ws with
  | nil => rfl
  | cons w ws ih =>
    have hw : ¬ ivMem w s := h w (List.mem_cons_self w ws)
    have hrest := ih (fun v hv => h v (List.mem_cons_of_mem w hv))
    simp [firstMatchIdx, hw, hrest]

/-- The index returned by the scan is the first matching one. -/
theorem firstMatchIdx_spec {s : ℚ} {ws : List (ℚ × ℚ)} {i : ℕ}
    (h : firstMatchIdx s ws = some i) :
    ∃ w, ws[i]? = some w ∧ ivMem w s ∧
      ∀ j, j < i → ∀ w', ws[j]? = some w' → ¬ ivMem w' s := by
  induction ws generalizing i with
  | nil => simp [firstMatchIdx] at h
  | cons w ws ih =>
    by_cases hw : ivMem w s
    · simp only [firstMatchIdx, if_pos hw, Option.some.injEq] at h
      subst h
      exact ⟨w, by simp, hw, fun j hj => by omega⟩
    · simp only [firstMatchIdx, if_neg hw, Option.map_eq_some'] at h
      rcases h with ⟨k, hk, rfl⟩
      rcases ih hk with ⟨v, hv, hmem, hfirst⟩
      refine ⟨v, by simpa using hv, hmem, ?_⟩
      intro j hj
      cases j with
      | zero => intro w' hw'; simp at hw'; subst hw'; exact hw
      | succ j' =>
        intro w' hw'
        exact hfirst j' (by omega) w' (by simpa using hw')

/-! ### C1: window geometry -/

/-- C1, counterexample: at total duration `T = 22` (which the claim admits),
the computed windows are not pairwise disjoint: the point 8 lies both in
`segment_1 = [7, 15)` and in `segment_3 = [22*0.3, 22*0.5) = [6.6, 11)`. -/
theorem c1_counterexample : ¬ windowsDisjoint (timeRanges 22) := by
  intro h
  rw [windowsDisjoint, timeRanges] at h
  have h0 := (List.pairwise_cons.mp h).1
  have h02 := h0 (22 * (3/10), 22 * (1/2)) (by simp)
  exact h02 8 ⟨by constructor <;> norm_num, by constructor <;> norm_num⟩

/-- C1, amended: for every total duration `T ≥ 50` (rather than `T ≥ 22`),
the six windows computed by `_perform_analysis` are pairwise disjoint,
window 1 is the fixed interval `[7, 15)`, and the union of all six windows
is contained in `[7, T - 7)`.  (For `22 ≤ T < 50` the proportional windows
reach below 15s and overlap window 1, as the counterexample shows.) -/
theorem c1_amended (T : ℚ) (hT : 50 ≤ T) :
    windowsDisjoint (timeRanges T) ∧
    (timeRanges T)[0]? = some (7, 15) ∧
    (∀ w ∈ timeRanges T, ∀ x : ℚ, ivMem w x → 7 ≤ x ∧ x < T - 7) := by
  have key : ∀ a b c d : ℚ, b ≤ c → ∀ x : ℚ, ¬ (ivMem (a, b) x ∧ ivMem (c, d) x) := by
    rintro a b c d hbc x ⟨⟨_, hxb⟩, ⟨hcx, _⟩⟩
    exact lt_irrefl x (lt_of_lt_of_le hxb (le_trans hbc hcx))
  refine ⟨?_, rfl, ?_⟩
  · rw [windowsDisjoint, timeRanges]
    refine List.Pairwise.cons ?_ (List.Pairwise.cons ?_ (List.Pairwise.cons ?_
      (List.Pairwise.cons ?_ (List.Pairwise.cons ?_ (List.pairwise_singleton _ _))))) <;>
      (intro w hw; fin_cases hw <;> exact key _ _ _ _ (by linarith))
  · intro w hw x hx
    rw [timeRanges] at hw
    fin_cases hw <;> (obtain ⟨h1, h2⟩ := hx; dsimp only at h1 h2; constructor <;> linarith)

/-- C1, witness at `T = 60`. -/
theorem c1_witness :
    windowsDisjoint (timeRanges 60) ∧
    (timeRanges 60)[0]? = some (7, 15) ∧
    (∀ w ∈ timeRanges 60, ∀ x : ℚ, ivMem w x → 7 ≤ x ∧ x < 60 - 7) :=
  c1_amended 60 (by norm_num)

/-! ### C2: window assignment -/

/-- C2, counterexample: in the transcript with a single line starting at
6.6s and ending at 22s, the total duration is 22, the line's start time lies
outside `[7, T-7) = [7, 15)`, yet the assignment loop puts the line in
`segment_3` (index 2), because `segment_3 = [6.6, 11)` contains 6.6 — the
claim says such a line is assigned to no window. -/
theorem c2_counterexample :
    totalDuration [⟨33/5, 22⟩] = some 22 ∧
    ((33/5 : ℚ) < 7) ∧
    assignSegment 22 (33/5) = some 2 := by
  refine ⟨by decide, by norm_num, ?_⟩
  norm_num [assignSegment, timeRanges, firstMatchIdx, ivMem]

/-- C2, amended: (a) unconditionally, every line with start time in
`[7, T-7)` is assigned to exactly one window, (b) the assigned window is the
first one (in enumeration order) whose half-open interval contains the start
time, and (c) provided `T ≥ 50` (the claim omits this bound), a line with
start time outside `[7, T-7)` is assigned to no window. -/
theorem c2_amended (T s : ℚ) :
    ((7 ≤ s ∧ s < T - 7) → (assignSegment T s).isSome = true) ∧
    (∀ i, assignSegment T s = some i →
      ∃ w, (timeRanges T)[i]? = some w ∧ ivMem w s ∧
        ∀ j, j < i → ∀ w', (timeRanges T)[j]? = some w' → ¬ ivMem w' s) ∧
    (50 ≤ T → (s < 7 ∨ T - 7 ≤ s) → assignSegment T s = none) := by
  refine ⟨?_, ?_, ?_⟩
  · rintro ⟨h7, hlt⟩
    apply firstMatchIdx_isSome_of_mem
    rcases lt_or_le s 15 with h15 | h15
    · exact ⟨(7, 15), by simp [timeRanges], h7, h15⟩
    · rcases lt_or_le s (T * (3/10)) with h3 | h3
      · exact ⟨(15, T * (3/10)), by simp [timeRanges], h15, h3⟩
      · rcases lt_or_le s (T * (1/2)) with h5 | h5
        · exact ⟨(T * (3/10), T * (1/2)), by simp [timeRanges], h3, h5⟩
        · rcases lt_or_le s (T * (7/10)) with h7' | h7'
          · exact ⟨(T * (1/2), T * (7/10)), by simp [timeRanges], h5, h7'⟩
          · rcases lt_or_le s (T * (17/20)) with h85 | h85
            · exact ⟨(T * (7/10), T * (17/20)), by simp [timeRanges], h7', h85⟩
            · exact ⟨(T * (17/20), T - 7), by simp [timeRanges], h85, hlt⟩
  · intro i h
    exact firstMatchIdx_spec h
  · intro hT hout
    apply firstMatchIdx_eq_none_of_forall
    intro w hw
    rw [timeRanges] at hw
    fin_cases hw <;>
      (rintro ⟨h1, h2⟩; dsimp only at h1 h2; rcases hout with h | h <;> linarith)

/-- C2, witness: at `T = 60`, start 10 is assigned and start 2 is not. -/
theorem c2_witness :
    (assignSegment 60 10).isSome = true ∧ assignSegment 60 2 = none :=
  ⟨(c2_amended 60 10).1 (by norm_num),
   (c2_amended 60 2).2.2 (by norm_num) (Or.inl (by norm_num))⟩

/-! ### C3: duration reconciliation -/

/-- C3: `_create_complete_version` computes the freeze duration as
`max(0, audioDuration - videoDuration)`; when the audio is not longer than
the video no frozen padding is generated and the raw segment stands alone;
when it is longer, the output is the original `videoDuration` seconds of
footage followed by a frozen hold of the difference, and the assembled
output duration equals the audio duration exactly. -/
theorem c3_reconciler (a v : ℚ) :
    freeze_duration a v = max 0 (a - v) ∧
    (a ≤ v → completePlan a v = [SegPiece.footage v]) ∧
    (v < a → completePlan a v = [SegPiece.footage v, SegPiece.frozen (a - v)]) ∧
    (v ≤ a → planDuration (completePlan a v) = a) := by
  refine ⟨rfl, ?_, ?_, ?_⟩
  · intro h
    have hz : freeze_duration a v = 0 := max_eq_left (by linarith)
    rw [completePlan, hz]
    norm_num
  · intro h
    have hp : freeze_duration a v = a - v := max_eq_right (by linarith)
    rw [completePlan, hp, if_pos (by linarith)]
  · intro h
    rcases eq_or_lt_of_le h with rfl | hlt
    · have hz : freeze_duration v v = 0 := by simp [freeze_duration]
      rw [completePlan, hz]
      simp [planDuration, SegPiece.dur]
    · have hp : freeze_duration a v = a - v := max_eq_right (by linarith)
      rw [completePlan, hp, if_pos (by linarith)]
      simp [planDuration, SegPiece.dur]

/-- C3, witness at the spec's scenario: audio 5.2s, video 3.0s — the plan is
3s of footage then 2.2s frozen, and its duration is 5.2s. -/
theorem c3_witness :
    completePlan (26/5) 3 = [SegPiece.footage 3, SegPiece.frozen (11/5)] ∧
    planDuration (completePlan (26/5) 3) = 26/5 := by
  refine ⟨?_, (c3_reconciler (26/5) 3).2.2.2 (by norm_num)⟩
  have h := (c3_reconciler (26/5) 3).2.2.1 (by norm_num)
  norm_num at h
  exact h

/-! ### C4: caption style split -/

/-- C4, counterexample: the caption `[1s, 2s)` lies entirely before the
threshold (here 4s), so the claim says its events cover `[start, end) =
[1, 2)`; but every dialogue event `merge_subtitles` writes for it ends at
the hard-coded threshold 4, and none ends at 2.  (Also, each styled part is
written as three dialogue lines — CN text, EN box, EN text — not as a single
event.) -/
theorem c4_counterexample :
    (1 : ℚ) < styleThreshold ∧ (2 : ℚ) ≤ styleThreshold ∧
    (captionEvents 1 2).map SubEvent.stop = [4, 4, 4] ∧
    ¬ ((2 : ℚ) ∈ (captionEvents 1 2).map SubEvent.stop) := by
  refine ⟨by norm_num [styleThreshold], by norm_num [styleThreshold], ?_, ?_⟩ <;>
    norm_num [captionEvents, styleThreshold, hiddenTriple, normalTriple]

/-- C4, amended: with `t0 = styleThreshold`, a caption starting before `t0`
always emits the three hidden-style dialogue lines covering `[start, t0)` —
even when the caption ends before `t0` — plus, exactly when its end exceeds
`t0`, the three opaque-style lines covering `[t0, end)`; a caption starting
at or after `t0` emits only the three opaque-style lines covering
`[start, end)`.  Hidden events always run from the caption start to `t0`;
opaque events always run from `max start t0` to the caption end. -/
theorem c4_amended (s e : ℚ) :
    (s < styleThreshold → e ≤ styleThreshold →
      captionEvents s e = hiddenTriple s styleThreshold) ∧
    (s < styleThreshold → styleThreshold < e →
      captionEvents s e = hiddenTriple s styleThreshold ++ normalTriple styleThreshold e) ∧
    (styleThreshold ≤ s → captionEvents s e = normalTriple s e) ∧
    (∀ ev ∈ captionEvents s e,
      (ev.hidden = true → ev.start = s ∧ ev.stop = styleThreshold ∧ s < styleThreshold) ∧
      (ev.hidden = false → ev.start = max s styleThreshold ∧ ev.stop = e)) := by
  refine ⟨?_, ?_, ?_, ?_⟩
  · intro h1 h2
    rw [captionEvents, if_pos h1, if_neg (not_lt.mpr h2)]
    simp
  · intro h1 h2
    rw [captionEvents, if_pos h1, if_pos h2]
  · intro h1
    rw [captionEvents, if_neg (not_lt.mpr h1)]
  · intro ev hev
    rw [captionEvents] at hev
    by_cases h1 : s < styleThreshold
    · rw [if_pos h1] at hev
      rw [List.mem_append] at hev
      rcases hev with hev | hev
      · simp only [hiddenTriple, List.mem_cons, List.not_mem_nil, or_false] at hev
        rcases hev with rfl | rfl | rfl <;>
          exact ⟨fun _ => ⟨rfl, rfl, h1⟩, fun hco => by cases hco⟩
      · by_cases h2 : styleThreshold < e
        · rw [if_pos h2] at hev
          simp only [normalTriple, List.mem_cons, List.not_mem_nil, or_false] at hev
          rcases hev with rfl | rfl | rfl <;>
            exact ⟨fun hco => absurd hco (by simp),
              fun _ => ⟨(max_eq_right h1.le).symm, rfl⟩⟩
        · rw [if_neg h2] at hev
          cases hev
    · rw [if_neg h1] at hev
      simp only [normalTriple, List.mem_cons, List.not_mem_nil, or_false] at hev
      have hs : max s styleThreshold = s := max_eq_left (not_lt.mp h1)
      rcases hev with rfl | rfl | rfl <;>
        exact ⟨fun hco => absurd hco (by simp), fun _ => ⟨hs.symm, rfl⟩⟩

/-- C4, witness: the caption `[2s, 10s)` crosses the threshold and yields
the hidden triple on `[2, 4)` followed by the opaque triple on `[4, 10)`. -/
theorem c4_witness :
    captionEvents 2 10 = hiddenTriple 2 styleThreshold ++ normalTriple styleThreshold 10 :=
  (c4_amended 2 10).2.1 (by norm_num [styleThreshold]) (by norm_num [styleThreshold])

/-! ### C7: side-clip enable windows -/

theorem sideWindowsFrom_length (t : ℚ) (ds : List ℚ) :
    (sideWindowsFrom t ds).length = ds.length := by
  induction ds generalizing t with
  | nil => rfl
  | cons d ds ih => simp [sideWindowsFrom, ih]

theorem sideWindowsFrom_getElem? (t : ℚ) (ds : List ℚ) (i : ℕ) (hi : i < ds.length) :
    (sideWindowsFrom t ds)[i]? = some (t + (ds.take i).sum, t + (ds.take (i+1)).sum) := by
  induction ds generalizing t i with
  | nil => simp at hi
  | cons d ds ih =>
    cases i with
    | zero => simp [sideWindowsFrom]
    | succ n =>
      have hn : n < ds.length := by simpa using hi
      simp [sideWindowsFrom, ih (t + d) n hn, add_assoc]

theorem sideWindowsFrom_lb (t : ℚ) (ds : List ℚ) (h : ∀ d ∈ ds, 0 ≤ d) :
    ∀ w ∈ sideWindowsFrom t ds, t ≤ w.1 := by
  induction ds generalizing t with
  | nil => intro w hw; cases hw
  | cons d ds ih =>
    intro w hw
    rcases List.mem_cons.mp hw with rfl | hw'
    · exact le_refl t
    · have hd : 0 ≤ d := h d (List.mem_cons_self d ds)
      have := ih (t + d) (fun x hx => h x (List.mem_cons_of_mem d hx)) w hw'
      linarith

theorem sideWindowsFrom_disjoint (t : ℚ) (ds : List ℚ) (h : ∀ d ∈ ds, 0 ≤ d) :
    windowsDisjoint (sideWindowsFrom t ds) := by
  induction ds generalizing t with
  | nil => exact List.Pairwise.nil
  | cons d ds ih =>
    refine List.Pairwise.cons ?_ (ih (t + d) (fun x hx => h x (List.mem_cons_of_mem d hx)))
    rintro w hw x ⟨⟨_, hx2⟩, ⟨hw1, _⟩⟩
    have hlb := sideWindowsFrom_lb (t + d) ds
      (fun x hx => h x (List.mem_cons_of_mem d hx)) w hw
    dsimp only at hx2
    linarith

/-- C7: in the filter graph built by `combine_videos`, the `i`-th side clip's
`enable` window is exactly `[Σ_{j<i} d_j, Σ_{j≤i} d_j)`: there are as many
windows as clips, the `i`-th window's bounds are the partial sums (so the
windows are contiguous, start at 0 and follow input order), and for
nonnegative probed durations the windows are pairwise disjoint, so no side
clip is enabled inside another clip's window. -/
theorem c7_side_windows (ds : List ℚ) :
    (sideEnableWindows ds).length = ds.length ∧
    (∀ i, i < ds.length →
      (sideEnableWindows ds)[i]? = some ((ds.take i).sum, (ds.take (i+1)).sum)) ∧
    ((∀ d ∈ ds, 0 ≤ d) → windowsDisjoint (sideEnableWindows ds)) := by
  refine ⟨sideWindowsFrom_length 0 ds, ?_, fun h => sideWindowsFrom_disjoint 0 ds h⟩
  intro i hi
  simpa using sideWindowsFrom_getElem? 0 ds i hi

/-- C7, witness on durations `[2, 3]`: two windows, the second being
`[2, 5)`, and the windows are disjoint. -/
theorem c7_witness :
    (sideEnableWindows [(2:ℚ), 3]).length = 2 ∧
    (sideEnableWindows [(2:ℚ), 3])[1]? = some (2, 5) ∧
    windowsDisjoint (sideEnableWindows [(2:ℚ), 3]) := by
  have h := c7_side_windows [(2:ℚ), 3]
  refine ⟨h.1, ?_, h.2.2 (by norm_num)⟩
  have h1 := h.2.1 1 (by norm_num)
  norm_num at h1
  exact h1

/-! ### C8: audio track assembly -/

theorem validateRole_eq_none_iff (paths : List (String × AudioFile)) (role : String) :
    validateRole paths role = none ↔
      paths.lookup role = none ∨
      ∃ f, paths.lookup role = some f ∧ (f.onDisk = false ∨ f.size = 0) := by
  unfold validateRole
  rcases h : paths.lookup role with _ | f
  · simp [h]
  · cases hod : f.onDisk
    · simp [h, hod]
    · by_cases hs : f.size = 0 <;> simp [h, hod, hs]

theorem validateRole_eq_some (paths : List (String × AudioFile)) (role : String)
    (f : AudioFile) (h : paths.lookup role = some f) (h1 : f.onDisk = true)
    (h2 : f.size ≠ 0) : validateRole paths role = some f := by
  unfold validateRole
  simp [h, h1, h2]

/-- C8: `_merge_audio_files` validation fails exactly when some required role
of the fixed order `["en", "zh"]` is missing from the map, names a file that
is not on disk, or names an empty (zero-byte) file; and when both roles
validate, the `concat` filter's ordered input list is exactly the `en` file
followed by the `zh` file. -/
theorem c8_merge_audio (paths : List (String × AudioFile)) :
    (merge_audio_files paths = none ↔
      ∃ role ∈ audio_sequence,
        paths.lookup role = none ∨
        ∃ f, paths.lookup role = some f ∧ (f.onDisk = false ∨ f.size = 0)) ∧
    (∀ fe fz, paths.lookup "en" = some fe → paths.lookup "zh" = some fz →
      fe.onDisk = true → fe.size ≠ 0 → fz.onDisk = true → fz.size ≠ 0 →
      merge_audio_files paths = some [fe.path, fz.path]) := by
  constructor
  · have hR : (∃ role ∈ audio_sequence,
        paths.lookup role = none ∨
        ∃ f, paths.lookup role = some f ∧ (f.onDisk = false ∨ f.size = 0)) ↔
        (validateRole paths "en" = none ∨ validateRole paths "zh" = none) := by
      constructor
      · rintro ⟨role, hrole, hbad⟩
        have hv := (validateRole_eq_none_iff paths role).mpr hbad
        simp only [audio_sequence, List.mem_cons, List.not_mem_nil, or_false] at hrole
        rcases hrole with rfl | rfl
        · exact Or.inl hv
        · exact Or.inr hv
      · rintro (h | h)
        · exact ⟨"en", by simp [audio_sequence],
            (validateRole_eq_none_iff paths "en").mp h⟩
        · exact ⟨"zh", by simp [audio_sequence],
            (validateRole_eq_none_iff paths "zh").mp h⟩
    rw [hR, merge_audio_files, audio_sequence]
    rcases he : validateRole paths "en" with _ | fe <;>
      rcases hz : validateRole paths "zh" with _ | fz <;>
        simp [collectRoles, he, hz]
  · intro fe fz h1 h2 h3 h4 h5 h6
    have ve := validateRole_eq_some paths "en" fe h1 h3 h4
    have vz := validateRole_eq_some paths "zh" fz h2 h5 h6
    rw [merge_audio_files, audio_sequence]
    simp [collectRoles, ve, vz]

/-- C8, witness: a map with valid `en` and `zh` files merges, listing the
inputs in `en`-then-`zh` order. -/
theorem c8_witness :
    merge_audio_files
        [("en", ⟨"a.mp3", true, 5⟩), ("zh", ⟨"b.mp3", true, 7⟩)] =
      some ["a.mp3", "b.mp3"] :=
  (c8_merge_audio _).2 ⟨"a.mp3", true, 5⟩ ⟨"b.mp3", true, 7⟩ rfl rfl rfl
    (by norm_num) rfl (by norm_num)

/-! ### C9: timestamp verification retains every item -/

theorem verifyItem_tagged (smap : List (String × TimeInfo)) (item out : AnalysisItem)
    (h : verifyItem smap item = some out) :
    out.verified = some true ∨ (out.verified = some false ∧ out.error.isSome = true) := by
  unfold verifyItem at h
  rcases hf : smap.find? (fun kv => pyContains (strLower item.text) kv.1) with _ | kv <;>
    rw [hf] at h <;> dsimp only at h
  · simp only [Option.some.injEq] at h
    subst h
    exact Or.inr ⟨rfl, rfl⟩
  · by_cases hseg : item.segment = "segment_1"
    · rw [if_pos hseg] at h
      rcases hw : is_within_7_15_seconds kv.2.start_time with _ | b <;> rw [hw] at h
      · cases h
      · cases b
        · simp only [Bool.false_eq_true, if_false, Option.some.injEq] at h
          subst h
          exact Or.inr ⟨rfl, rfl⟩
        · simp only [if_true, Option.some.injEq] at h
          subst h
          exact Or.inl rfl
    · rw [if_neg hseg] at h
      simp only [Option.some.injEq] at h
      subst h
      exact Or.inl rfl

theorem verifyCategory_spec (smap : List (String × TimeInfo))
    (l l' : List AnalysisItem) (h : verifyCategory smap l = some l') :
    l'.length = l.length ∧
    ∀ x ∈ l', x.verified = some true ∨ (x.verified = some false ∧ x.error.isSome = true) := by
  induction l generalizing l' with
  | nil =>
    simp only [verifyCategory, Option.some.injEq] at h
    subst h
    exact ⟨rfl, by intro x hx; cases hx⟩
  | cons a rest ih =>
    unfold verifyCategory at h
    rcases h1 : verifyItem smap a with _ | it <;> rw [h1] at h
    · cases h
    · rcases h2 : verifyCategory smap rest with _ | rs <;> rw [h2] at h
      · cases h
      · simp only [Option.some.injEq] at h
        subst h
        obtain ⟨hlen, hall⟩ := ih rs h2
        refine ⟨by simp [hlen], ?_⟩
        intro x hx
        rcases List.mem_cons.mp hx with rfl | hx'
        · exact verifyItem_tagged smap a x h1
        · exact hall x hx'

/-- C9: whenever `verify_timestamp` returns a result, each category's item
count is preserved (no item dropped), every returned item is tagged
`verified = true` or `verified = false`, and every item tagged false carries
an explanation in its `error` field. -/
theorem c9_verify (subs : List SrtLine) (analysis res : AnalysisResult)
    (h : verify_timestamp subs analysis = some res) :
    res.vocabulary.length = analysis.vocabulary.length ∧
    res.phrases.length = analysis.phrases.length ∧
    res.expressions.length = analysis.expressions.length ∧
    (∀ item, (item ∈ res.vocabulary ∨ item ∈ res.phrases ∨ item ∈ res.expressions) →
      item.verified = some true ∨
        (item.verified = some false ∧ item.error.isSome = true)) := by
  unfold verify_timestamp at h
  dsimp only at h
  rcases hv : verifyCategory (buildSegmentMap subs) analysis.vocabulary with _ | v <;>
    rw [hv] at h
  · cases h
  rcases hp : verifyCategory (buildSegmentMap subs) analysis.phrases with _ | p <;>
    rw [hp] at h
  · cases h
  rcases he : verifyCategory (buildSegmentMap subs) analysis.expressions with _ | e <;>
    rw [he] at h
  · cases h
  simp only [Option.some.injEq] at h
  subst h
  obtain ⟨hlv, hav⟩ := verifyCategory_spec _ _ _ hv
  obtain ⟨hlp, hap⟩ := verifyCategory_spec _ _ _ hp
  obtain ⟨hle, hae⟩ := verifyCategory_spec _ _ _ he
  refine ⟨hlv, hlp, hle, ?_⟩
  rintro item (hm | hm | hm)
  · exact hav item hm
  · exact hap item hm
  · exact hae item hm

/-- C9, witness: a transcript with one line, an analysis with one matching
vocabulary item and one unmatched phrase item — both items are returned, the
first verified, the second unverified with an explanation. -/
theorem c9_witness :
    wResult.vocabulary.length = wAnalysis.vocabulary.length ∧
    wResult.phrases.length = wAnalysis.phrases.length ∧
    wResult.expressions.length = wAnalysis.expressions.length ∧
    (∀ item, (item ∈ wResult.vocabulary ∨ item ∈ wResult.phrases ∨
        item ∈ wResult.expressions) →
      item.verified = some true ∨
        (item.verified = some false ∧ item.error.isSome = true)) :=
  c9_verify wSubs wAnalysis wResult rfl

/-! ### C10: timestamp parsing in the clip composer -/

theorem ne_of_isDigit {c : Char} (h : c.isDigit = true) (x : Char)
    (hx : x.isDigit = false) : c ≠ x := by
  intro e
  subst e
  rw [h] at hx
  cases hx

theorem isPySpace_of_digit {c : Char} (h : c.isDigit = true) : isPySpace c = false := by
  simp only [isPySpace, Bool.or_eq_false_iff, beq_eq_false_iff_ne]
  exact ⟨⟨⟨⟨⟨ne_of_isDigit h ' ' (by decide), ne_of_isDigit h '\t' (by decide)⟩,
    ne_of_isDigit h '\n' (by decide)⟩, ne_of_isDigit h '\r' (by decide)⟩,
    ne_of_isDigit h '\x0b' (by decide)⟩, ne_of_isDigit h '\x0c' (by decide)⟩

theorem dropWhile_isPySpace_id (l : List Char) (h : ∀ c ∈ l, c.isDigit = true) :
    l.dropWhile isPySpace = l := by
  cases l with
  | nil => rfl
  | cons c rest =>
    rw [List.dropWhile_cons, if_neg]
    rw [isPySpace_of_digit (h c (List.mem_cons_self c rest))]
    simp

theorem pyStripChars_digits (l : List Char) (h : ∀ c ∈ l, c.isDigit = true) :
    pyStripChars l = l := by
  unfold pyStripChars
  rw [dropWhile_isPySpace_id l h,
    dropWhile_isPySpace_id l.reverse (fun c hc => h c (List.mem_reverse.mp hc)),
    List.reverse_reverse]

theorem digitsVal_isSome (l : List Char) (h : ∀ c ∈ l, c.isDigit = true) (acc : ℕ) :
    (digitsVal l acc).isSome = true := by
  induction l generalizing acc with
  | nil => simp [digitsVal]
  | cons c rest ih =>
    have hc : c.isDigit = true := h c (List.mem_cons_self c rest)
    rw [digitsVal.eq_def]
    dsimp only
    rw [if_neg (ne_of_isDigit hc '_' (by decide)), if_pos hc]
    exact ih (fun x hx => h x (List.mem_cons_of_mem c hx)) _

theorem pyIntOfChars_digits (l : List Char) (hne : l ≠ [])
    (h : ∀ c ∈ l, c.isDigit = true) : (pyIntOfChars l).isSome = true := by
  unfold pyIntOfChars
  rw [pyStripChars_digits l h]
  cases l with
  | nil => exact absurd rfl hne
  | cons c rest =>
    have hc : c.isDigit = true := h c (List.mem_cons_self c rest)
    dsimp only
    rw [if_neg (ne_of_isDigit hc '+' (by decide)), if_neg (ne_of_isDigit hc '-' (by decide))]
    simp only [digitsFirst]
    rw [if_pos hc]
    rcases Option.isSome_iff_exists.mp
        (digitsVal_isSome rest (fun x hx => h x (List.mem_cons_of_mem c hx))
          (digitVal c)) with ⟨v, hv⟩
    simp [hv]

theorem parsePartsChars_wf (h1 h2 m1 m2 s1 s2 d1 d2 d3 : Char)
    (hh1 : h1.isDigit = true) (hh2 : h2.isDigit = true)
    (hm1 : m1.isDigit = true) (hm2 : m2.isDigit = true)
    (hs1 : s1.isDigit = true) (hs2 : s2.isDigit = true)
    (hd1 : d1.isDigit = true) (hd2 : d2.isDigit = true) (hd3 : d3.isDigit = true) :
    (parsePartsChars [h1, h2, ':', m1, m2, ':', s1, s2, ',', d1, d2, d3]).isSome = true := by
  have hsplit : splitOnChar ',' [h1, h2, ':', m1, m2, ':', s1, s2, ',', d1, d2, d3] =
      [[h1, h2, ':', m1, m2, ':', s1, s2], [d1, d2, d3]] := by
    simp [splitOnChar, ne_of_isDigit hh1 ',' (by decide), ne_of_isDigit hh2 ',' (by decide),
      ne_of_isDigit hm1 ',' (by decide), ne_of_isDigit hm2 ',' (by decide),
      ne_of_isDigit hs1 ',' (by decide), ne_of_isDigit hs2 ',' (by decide),
      ne_of_isDigit hd1 ',' (by decide), ne_of_isDigit hd2 ',' (by decide),
      ne_of_isDigit hd3 ',' (by decide),
      (by decide : ¬ ((':' : Char) = ','))]
  have hsplit2 : splitOnChar ':' [h1, h2, ':', m1, m2, ':', s1, s2] =
      [[h1, h2], [m1, m2], [s1, s2]] := by
    simp [splitOnChar, ne_of_isDigit hh1 ':' (by decide), ne_of_isDigit hh2 ':' (by decide),
      ne_of_isDigit hm1 ':' (by decide), ne_of_isDigit hm2 ':' (by decide),
      ne_of_isDigit hs1 ':' (by decide), ne_of_isDigit hs2 ':' (by decide)]
  unfold parsePartsChars
  rw [hsplit]
  dsimp only
  rw [hsplit2]
  dsimp only
  have ph := pyIntOfChars_digits [h1, h2] (by simp)
    (by intro c hc; rcases List.mem_cons.mp hc with rfl | hc; · exact hh1
        · rcases List.mem_cons.mp hc with rfl | hc; · exact hh2
          · cases hc)
  have pm := pyIntOfChars_digits [m1, m2] (by simp)
    (by intro c hc; rcases List.mem_cons.mp hc with rfl | hc; · exact hm1
        · rcases List.mem_cons.mp hc with rfl | hc; · exact hm2
          · cases hc)
  have ps := pyIntOfChars_digits [s1, s2] (by simp)
    (by intro c hc; rcases List.mem_cons.mp hc with rfl | hc; · exact hs1
        · rcases List.mem_cons.mp hc with rfl | hc; · exact hs2
          · cases hc)
  have pd := pyIntOfChars_digits [d1, d2, d3] (by simp)
    (by intro c hc; rcases List.mem_cons.mp hc with rfl | hc; · exact hd1
        · rcases List.mem_cons.mp hc with rfl | hc; · exact hd2
          · rcases List.mem_cons.mp hc with rfl | hc; · exact hd3
            · cases hc)
  rcases Option.isSome_iff_exists.mp ph with ⟨vh, hvh⟩
  rcases Option.isSome_iff_exists.mp pm with ⟨vm, hvm⟩
  rcases Option.isSome_iff_exists.mp ps with ⟨vs, hvs⟩
  rcases Option.isSome_iff_exists.mp pd with ⟨vd, hvd⟩
  simp [hvh, hvm, hvs, hvd]

/-- C10, counterexample: `"1:2:3,4"` is not of the well-formed
`HH:MM:SS,mmm` shape, yet `_parse_timestamp` does not return 0.0 for it —
it parses it as 3723.004 seconds — refuting "if the string is not of the
well-formed form HH:MM:SS,mmm it returns 0.0". -/
theorem c10_counterexample :
    wellFormedTimestamp "1:2:3,4" = false ∧
    parse_timestamp "1:2:3,4" = 3723 + 1/250 ∧
    (3723 + 1/250 : ℚ) ≠ 0 := by
  refine ⟨rfl, ?_, by norm_num⟩
  have hp : parseParts "1:2:3,4" = some (1, 2, 3, 4) := rfl
  rw [parse_timestamp, hp]
  norm_num

/-- C10, amended: `_parse_timestamp` is total: every string yields a value;
any string whose decomposition (split on `','` into two parts, split on
`':'` into three, Python-`int` on each field) fails yields 0.0 — so a
malformed timestamp silently anchors the clip at time 0 — and every string
of the strict `HH:MM:SS,mmm` shape decomposes successfully.  (But, per the
counterexample, decomposition also succeeds on some strings outside that
shape, e.g. with variable-width fields, which therefore do not return 0.0.) -/
theorem c10_parse (ts : String) :
    (parseParts ts = none → parse_timestamp ts = 0) ∧
    (wellFormedTimestamp ts = true → (parseParts ts).isSome = true) := by
  constructor
  · intro h
    rw [parse_timestamp, h]
  · intro h
    unfold wellFormedTimestamp at h
    split at h
    case h_1 h1 h2 c1 m1 m2 c2 s1 s2 c3 d1 d2 d3 heq =>
      simp only [Bool.and_eq_true, beq_iff_eq] at h
      obtain ⟨⟨⟨⟨⟨⟨⟨⟨⟨⟨⟨hc1, hc2⟩, hc3⟩, hh1⟩, hh2⟩, hm1⟩, hm2⟩, hs1⟩, hs2⟩, hd1⟩, hd2⟩, hd3⟩ := h
      subst hc1; subst hc2; subst hc3
      unfold parseParts
      rw [heq]
      exact parsePartsChars_wf _ _ _ _ _ _ _ _ _ hh1 hh2 hm1 hm2 hs1 hs2 hd1 hd2 hd3
    case h_2 => cases h

/-- C10, witness: a malformed string parses to 0.0, and the well-formed
`"00:00:03,133"` decomposes successfully. -/
theorem c10_witness :
    parse_timestamp "abc" = 0 ∧ (parseParts "00:00:03,133").isSome = true :=
  ⟨(c10_parse "abc").1 rfl, (c10_parse "00:00:03,133").2 rfl⟩

/-! ### C5/C6: side-sequence generator -/

theorem pickD_mem {l : List Folder} (hl : l ≠ []) (r : ℕ) : pickD l r ∈ l := by
  unfold pickD
  have hlen : 0 < l.length := List.length_pos.mpr hl
  have hmod : r % l.length < l.length := Nat.mod_lt _ hlen
  rw [List.getElem?_eq_getElem hmod]
  simp only [Option.getD_some]
  exact List.getElem_mem hmod

theorem erase_ne_nil {l : List Folder} (h2 : 2 ≤ l.length) (f : Folder) :
    l.erase f ≠ [] := by
  intro e
  have hlen : (l.erase f).length = 0 := by rw [e]; rfl
  by_cases hf : f ∈ l
  · rw [List.length_erase_of_mem hf] at hlen; omega
  · rw [List.erase_of_not_mem hf] at hlen; omega

theorem roundSel1_perm (folders : List Folder) (r1 : ℕ) :
    folders.Perm ((roundSel1 folders r1).1 ++ (roundSel1 folders r1).2) := by
  unfold roundSel1 drawOne
  rcases hg : folders[r1 % folders.length]? with _ | f <;> simp only [hg]
  · simp
  · have hf : f ∈ folders := List.getElem?_mem hg
    simpa using List.perm_cons_erase hf

theorem draw2_eq_pos (avail : List Folder) (ra rb : ℕ) (h2 : 2 ≤ avail.length) :
    draw2 avail ra rb =
      ([pickD avail ra, pickD (avail.erase (pickD avail ra)) rb],
        (avail.erase (pickD avail ra)).erase (pickD (avail.erase (pickD avail ra)) rb)) := by
  unfold draw2
  rw [if_pos h2]

theorem draw2_eq_neg (avail : List Folder) (ra rb : ℕ) (h2 : ¬ 2 ≤ avail.length) :
    draw2 avail ra rb = ([], avail) := by
  unfold draw2
  rw [if_neg h2]

theorem draw3_eq_pos (avail : List Folder) (ra rb rc : ℕ) (h3 : 3 ≤ avail.length) :
    draw3 avail ra rb rc =
      ([pickD avail ra, pickD (avail.erase (pickD avail ra)) rb,
          pickD ((avail.erase (pickD avail ra)).erase
            (pickD (avail.erase (pickD avail ra)) rb)) rc],
        ((avail.erase (pickD avail ra)).erase
            (pickD (avail.erase (pickD avail ra)) rb)).erase
          (pickD ((avail.erase (pickD avail ra)).erase
            (pickD (avail.erase (pickD avail ra)) rb)) rc)) := by
  unfold draw3
  rw [if_pos h3]

theorem draw3_eq_neg (avail : List Folder) (ra rb rc : ℕ) (h3 : ¬ 3 ≤ avail.length) :
    draw3 avail ra rb rc = ([], avail) := by
  unfold draw3
  rw [if_neg h3]

theorem draw2_perm (avail : List Folder) (ra rb : ℕ) :
    avail.Perm ((draw2 avail ra rb).1 ++ (draw2 avail ra rb).2) := by
  by_cases h2 : 2 ≤ avail.length
  · rw [draw2_eq_pos avail ra rb h2]
    have hne : avail ≠ [] := by intro e; rw [e] at h2; simp at h2
    have hf : pickD avail ra ∈ avail := pickD_mem hne ra
    have hmne : avail.erase (pickD avail ra) ≠ [] := erase_ne_nil h2 _
    have hg : pickD (avail.erase (pickD avail ra)) rb ∈ avail.erase (pickD avail ra) :=
      pickD_mem hmne rb
    exact (List.perm_cons_erase hf).trans
      (List.Perm.cons _ (List.perm_cons_erase hg))
  · rw [draw2_eq_neg avail ra rb h2]
    simp

theorem draw3_perm (avail : List Folder) (ra rb rc : ℕ) :
    avail.Perm ((draw3 avail ra rb rc).1 ++ (draw3 avail ra rb rc).2) := by
  by_cases h3 : 3 ≤ avail.length
  · rw [draw3_eq_pos avail ra rb rc h3]
    have hne : avail ≠ [] := by intro e; rw [e] at h3; simp at h3
    have hf : pickD avail ra ∈ avail := pickD_mem hne ra
    have hmne : avail.erase (pickD avail ra) ≠ [] := erase_ne_nil (by omega) _
    have hg : pickD (avail.erase (pickD avail ra)) rb ∈ avail.erase (pickD avail ra) :=
      pickD_mem hmne rb
    have hm2ne : (avail.erase (pickD avail ra)).erase
        (pickD (avail.erase (pickD avail ra)) rb) ≠ [] := by
      apply erase_ne_nil
      rw [List.length_erase_of_mem hf]
      omega
    have hh : pickD ((avail.erase (pickD avail ra)).erase
          (pickD (avail.erase (pickD avail ra)) rb)) rc ∈
        (avail.erase (pickD avail ra)).erase (pickD (avail.erase (pickD avail ra)) rb) :=
      pickD_mem hm2ne rc
    exact (List.perm_cons_erase hf).trans
      (List.Perm.cons _ ((List.perm_cons_erase hg).trans
        (List.Perm.cons _ (List.perm_cons_erase hh))))
  · rw [draw3_eq_neg avail ra rb rc h3]
    simp

theorem roundSels_perm (folders : List Folder) (r1 r2 r3 r4 r5 r6 : ℕ) :
    folders.Perm
      ((roundSels folders r1 r2 r3 r4 r5 r6).1 ++
        (roundSels folders r1 r2 r3 r4 r5 r6).2.1 ++
        (roundSels folders r1 r2 r3 r4 r5 r6).2.2 ++
        (draw3 (draw2 (roundSel1 folders r1).2 r2 r3).2 r4 r5 r6).2) := by
  have p1 := roundSel1_perm folders r1
  have p2 := draw2_perm (roundSel1 folders r1).2 r2 r3
  have p3 := draw3_perm (draw2 (roundSel1 folders r1).2 r2 r3).2 r4 r5 r6
  have step : folders.Perm
      ((roundSel1 folders r1).1 ++
        ((draw2 (roundSel1 folders r1).2 r2 r3).1 ++
          ((draw3 (draw2 (roundSel1 folders r1).2 r2 r3).2 r4 r5 r6).1 ++
            (draw3 (draw2 (roundSel1 folders r1).2 r2 r3).2 r4 r5 r6).2))) :=
    p1.trans ((List.Perm.append_left _ p2).trans
      (List.Perm.append_left _ (List.Perm.append_left _ p3)))
  have : (roundSel1 folders r1).1 ++
        ((draw2 (roundSel1 folders r1).2 r2 r3).1 ++
          ((draw3 (draw2 (roundSel1 folders r1).2 r2 r3).2 r4 r5 r6).1 ++
            (draw3 (draw2 (roundSel1 folders r1).2 r2 r3).2 r4 r5 r6).2)) =
      (roundSels folders r1 r2 r3 r4 r5 r6).1 ++
        (roundSels folders r1 r2 r3 r4 r5 r6).2.1 ++
        (roundSels folders r1 r2 r3 r4 r5 r6).2.2 ++
        (draw3 (draw2 (roundSel1 folders r1).2 r2 r3).2 r4 r5 r6).2 := by
    simp [roundSels, List.append_assoc]
  rw [← this]
  exact step

theorem roundSels_names_nodup (folders : List Folder) (r1 r2 r3 r4 r5 r6 : ℕ)
    (h : (folders.map Folder.name).Nodup) :
    (((roundSels folders r1 r2 r3 r4 r5 r6).1 ++
        (roundSels folders r1 r2 r3 r4 r5 r6).2.1 ++
        (roundSels folders r1 r2 r3 r4 r5 r6).2.2).map Folder.name).Nodup := by
  have hp := (roundSels_perm folders r1 r2 r3 r4 r5 r6).map Folder.name
  have h2 := hp.nodup_iff.mp h
  rw [List.map_append] at h2
  exact List.Nodup.of_append_left h2

theorem countP_map_clip (mk : Folder → Clip) (hmk : ∀ f, (mk f).folderName = f.name)
    (n : String) (l : List Folder) :
    (l.map mk).countP (fun c => c.folderName == n) =
      l.countP (fun f => f.name == n) := by
  induction l with
  | nil => rfl
  | cons f rest ih => simp [List.countP_cons, ih, hmk]

theorem countP_filter_le (p q : Folder → Bool) (l : List Folder) :
    (l.filter p).countP q ≤ l.countP q := by
  induction l with
  | nil => simp
  | cons f rest ih =>
    rw [List.filter_cons]
    by_cases hp : p f
    · rw [if_pos hp, List.countP_cons, List.countP_cons]
      omega
    · rw [if_neg hp, List.countP_cons]
      have : (0 : ℕ) ≤ if q f = true then 1 else 0 := by positivity
      omega

theorem groupClips_count (sel : List Folder) (n : String) :
    (groupClips sel).countP (fun c => c.folderName == n) ≤
      2 * sel.countP (fun f => f.name == n) := by
  unfold groupClips
  rw [List.countP_append,
    countP_map_clip Clip.lead (fun f => rfl) n _,
    countP_map_clip Clip.follow (fun f => rfl) n _]
  have h1 := countP_filter_le (fun f => f.has1) (fun f => f.name == n) sel
  have h2 := countP_filter_le (fun f => f.has2) (fun f => f.name == n) sel
  omega

theorem groupOneClips_count (sel : List Folder) (n : String) :
    (groupOneClips sel).countP (fun c => c.folderName == n) ≤
      2 * sel.countP (fun f => f.name == n) := by
  rcases sel with _ | ⟨f, _ | ⟨g, rest⟩⟩
  · simp [groupOneClips]
  · rw [groupOneClips.eq_def]
    dsimp only
    by_cases hb : f.has1 && f.has2
    · rw [if_pos hb]
      cases hn : (f.name == n) <;>
        simp [List.countP_cons, Clip.folderName, hn]
    · rw [if_neg hb]
      simp
  · rw [groupOneClips.eq_def]
    dsimp only
    simp

theorem countP_names_eq_count (l : List Folder) (n : String) :
    l.countP (fun f => f.name == n) = (l.map Folder.name).count n := by
  induction l with
  | nil => rfl
  | cons f rest ih => simp [List.countP_cons, List.count_cons, ih]

/-- C6: within one round of `generate_one_round`, no folder is drawn twice,
so no folder contributes more than 2 clips (its `1.mp4` and its `2.mp4`);
and every round of the generated sequence starts again from the full folder
pool (`available_folders = folders.copy()`). -/
theorem c6_round_draw (folders : List Folder) (r1 r2 r3 r4 r5 r6 : ℕ)
    (h : (folders.map Folder.name).Nodup) (n : String) :
    ((generateOneRound folders r1 r2 r3 r4 r5 r6).filter
      (fun c => c.folderName == n)).length ≤ 2 ∧
    (∀ (entropy : ℕ → ℕ) (i : ℕ), roundAt folders entropy i =
      generateOneRound folders (entropy (6*i)) (entropy (6*i+1)) (entropy (6*i+2))
        (entropy (6*i+3)) (entropy (6*i+4)) (entropy (6*i+5))) := by
  refine ⟨?_, fun _ _ => rfl⟩
  rw [← List.countP_eq_length_filter]
  show ((groupOneClips (roundSels folders r1 r2 r3 r4 r5 r6).1 ++
      groupClips (roundSels folders r1 r2 r3 r4 r5 r6).2.1 ++
      groupClips (roundSels folders r1 r2 r3 r4 r5 r6).2.2).countP
        (fun c => c.folderName == n)) ≤ 2
  rw [List.countP_append, List.countP_append]
  have b1 := groupOneClips_count (roundSels folders r1 r2 r3 r4 r5 r6).1 n
  have b2 := groupClips_count (roundSels folders r1 r2 r3 r4 r5 r6).2.1 n
  have b3 := groupClips_count (roundSels folders r1 r2 r3 r4 r5 r6).2.2 n
  have hnn := roundSels_names_nodup folders r1 r2 r3 r4 r5 r6 h
  have hcount : ((roundSels folders r1 r2 r3 r4 r5 r6).1 ++
      (roundSels folders r1 r2 r3 r4 r5 r6).2.1 ++
      (roundSels folders r1 r2 r3 r4 r5 r6).2.2).countP (fun f => f.name == n) ≤ 1 := by
    rw [countP_names_eq_count]
    exact List.nodup_iff_count_le_one.mp hnn n
  rw [List.countP_append, List.countP_append] at hcount
  omega

/-- C6, witness: a concrete round over the seven-folder pool contributes at
most two clips from folder `B`, and round 0 of the sequence is one full
`generate_one_round` call on the full pool. -/
theorem c6_witness :
    ((generateOneRound cPool 0 0 0 0 0 0).filter
      (fun c => c.folderName == "B")).length ≤ 2 ∧
    roundAt cPool (fun _ => 0) 0 = generateOneRound cPool 0 0 0 0 0 0 :=
  ⟨(c6_round_draw cPool 0 0 0 0 0 0 (by decide) "B").1,
   (c6_round_draw cPool 0 0 0 0 0 0 (by decide) "B").2 (fun _ => 0) 0⟩

/-! ### C5: sequence length and round count -/

/-- C5, amended: provided the pool is nonempty and the measured first-round
duration `f` is positive, `generate_pip2_sequence` emits exactly
`⌊targetDuration / f⌋ + 1` full rounds (not `⌈targetDuration / f⌉`); and
when every emitted round lasts at least `f` (automatic when all rounds have
equal duration, e.g. a pool of exactly 6 usable folders), the cumulative
duration of the returned sequence exceeds `targetDuration`. -/
theorem c5_generate (folders : List Folder) (entropy : ℕ → ℕ) (target : ℚ)
    (hne : folders ≠ [])
    (htgt : 0 < target)
    (hf : 0 < sumDur (roundAt folders entropy 0))
    (hrounds : ∀ i < neededRounds folders entropy target,
      sumDur (roundAt folders entropy 0) ≤ sumDur (roundAt folders entropy i)) :
    generate_pip2_sequence folders entropy target =
      some (((List.range (neededRounds folders entropy target)).map
        (roundAt folders entropy)).flatten) ∧
    (neededRounds folders entropy target : ℤ) =
      ⌊target / sumDur (roundAt folders entropy 0)⌋ + 1 ∧
    target < sumDur (((List.range (neededRounds folders entropy target)).map
      (roundAt folders entropy)).flatten) := by
  have hfloor0 : 0 ≤ ⌊target / sumDur (roundAt folders entropy 0)⌋ :=
    Int.floor_nonneg.mpr (div_nonneg htgt.le hf.le)
  have hz : (neededRounds folders entropy target : ℤ) =
      ⌊target / sumDur (roundAt folders entropy 0)⌋ + 1 := by
    unfold neededRounds
    omega
  refine ⟨?_, hz, ?_⟩
  · have hie : ¬ (folders.isEmpty = true) := by
      simpa [List.isEmpty_iff] using hne
    unfold generate_pip2_sequence
    rw [if_neg hie, if_neg (ne_of_gt hf)]
  · have hsum : sumDur (((List.range (neededRounds folders entropy target)).map
        (roundAt folders entropy)).flatten) =
        ((List.range (neededRounds folders entropy target)).map
          (fun i => sumDur (roundAt folders entropy i))).sum := by
      unfold sumDur
      rw [List.map_flatten, List.sum_flatten, List.map_map, List.map_map]
      rfl
    rw [hsum]
    have hge : ∀ x ∈ (List.range (neededRounds folders entropy target)).map
        (fun i => sumDur (roundAt folders entropy i)),
        sumDur (roundAt folders entropy 0) ≤ x := by
      intro x hx
      rw [List.mem_map] at hx
      obtain ⟨i, hi, rfl⟩ := hx
      exact hrounds i (List.mem_range.mp hi)
    have hlb := List.card_nsmul_le_sum _ _ hge
    rw [List.length_map, List.length_range, nsmul_eq_mul] at hlb
    have hq : target / sumDur (roundAt folders entropy 0) <
        (⌊target / sumDur (roundAt folders entropy 0)⌋ : ℚ) + 1 :=
      Int.lt_floor_add_one _
    have hmul : target < ((⌊target / sumDur (roundAt folders entropy 0)⌋ : ℚ) + 1) *
        sumDur (roundAt folders entropy 0) := by
      have h := mul_lt_mul_of_pos_right hq hf
      rwa [div_mul_cancel₀ target (ne_of_gt hf)] at h
    have hcast : ((neededRounds folders entropy target : ℕ) : ℚ) =
        (⌊target / sumDur (roundAt folders entropy 0)⌋ : ℚ) + 1 := by
      exact_mod_cast hz
    rw [← hcast] at hmul
    linarith

/-- C5, witness: a one-folder pool with clips of 1s each (round duration 2)
and target 3s: the generator emits `⌊3/2⌋ + 1 = 2` rounds and the sequence
exceeds the target. -/
theorem c5_witness :
    generate_pip2_sequence wPool wEntropy 3 =
      some (((List.range (neededRounds wPool wEntropy 3)).map
        (roundAt wPool wEntropy)).flatten) ∧
    (neededRounds wPool wEntropy 3 : ℤ) =
      ⌊(3 : ℚ) / sumDur (roundAt wPool wEntropy 0)⌋ + 1 ∧
    (3 : ℚ) < sumDur (((List.range (neededRounds wPool wEntropy 3)).map
      (roundAt wPool wEntropy)).flatten) :=
  c5_generate wPool wEntropy 3 (by simp [wPool]) (by norm_num)
    (by rw [show roundAt wPool wEntropy 0 =
          [Clip.lead ⟨"A", true, true, 1, 1⟩, Clip.follow ⟨"A", true, true, 1, 1⟩]
        from rfl]
        norm_num [sumDur, Clip.dur])
    (fun i _ => le_of_eq rfl)

/-- C5, counterexample: a pool of 7 usable folders (one long, six short) and
target 420s where the first measured round lasts 210s: the claim predicts
`⌈420/210⌉ = 2` rounds and a cumulative duration ≥ 420s, but the code emits
`int(420/210) + 1 = 3` rounds, and — because the later rounds happen to
avoid the long folder — the returned sequence lasts only 234s < 420s. -/
theorem c5_counterexample :
    cPool.length = 7 ∧
    (∀ f ∈ cPool, f.has1 = true ∧ f.has2 = true) ∧
    (0 : ℚ) < 420 ∧
    sumDur (roundAt cPool cEntropy 0) = 210 ∧
    (⌈(420 : ℚ) / 210⌉ : ℤ) = 2 ∧
    neededRounds cPool cEntropy 420 = 3 ∧
    (generate_pip2_sequence cPool cEntropy 420).map sumDur = some 234 ∧
    (234 : ℚ) < 420 := by
  have hB : Folder.mk "B" true true 100 100 = cPool[0] := rfl
  have hr0 : roundAt cPool cEntropy 0 =
      [Clip.lead ⟨"B", true, true, 100, 100⟩, Clip.follow ⟨"B", true, true, 100, 100⟩,
       Clip.lead ⟨"S1", true, true, 1, 1⟩, Clip.lead ⟨"S2", true, true, 1, 1⟩,
       Clip.follow ⟨"S1", true, true, 1, 1⟩, Clip.follow ⟨"S2", true, true, 1, 1⟩,
       Clip.lead ⟨"S3", true, true, 1, 1⟩, Clip.lead ⟨"S4", true, true, 1, 1⟩,
       Clip.lead ⟨"S5", true, true, 1, 1⟩, Clip.follow ⟨"S3", true, true, 1, 1⟩,
       Clip.follow ⟨"S4", true, true, 1, 1⟩, Clip.follow ⟨"S5", true, true, 1, 1⟩] := rfl
  have hr1 : roundAt cPool cEntropy 1 =
      [Clip.lead ⟨"S1", true, true, 1, 1⟩, Clip.follow ⟨"S1", true, true, 1, 1⟩,
       Clip.lead ⟨"S2", true, true, 1, 1⟩, Clip.lead ⟨"S3", true, true, 1, 1⟩,
       Clip.follow ⟨"S2", true, true, 1, 1⟩, Clip.follow ⟨"S3", true, true, 1, 1⟩,
       Clip.lead ⟨"S4", true, true, 1, 1⟩, Clip.lead ⟨"S5", true, true, 1, 1⟩,
       Clip.lead ⟨"S6", true, true, 1, 1⟩, Clip.follow ⟨"S4", true, true, 1, 1⟩,
       Clip.follow ⟨"S5", true, true, 1, 1⟩, Clip.follow ⟨"S6", true, true, 1, 1⟩] := rfl
  have hr2 : roundAt cPool cEntropy 2 = roundAt cPool cEntropy 1 := rfl
  have hs0 : sumDur (roundAt cPool cEntropy 0) = 210 := by
    rw [hr0]
    norm_num [sumDur, Clip.dur]
  have hs1 : sumDur (roundAt cPool cEntropy 1) = 12 := by
    rw [hr1]
    norm_num [sumDur, Clip.dur]
  have hneed : neededRounds cPool cEntropy 420 = 3 := by
    unfold neededRounds
    rw [hs0]
    norm_num
    rfl
  refine ⟨rfl, by decide, by norm_num, hs0, by norm_num, hneed, ?_, by norm_num⟩
  have hie : ¬ (cPool.isEmpty = true) := by simp [cPool]
  unfold generate_pip2_sequence
  rw [if_neg hie, if_neg (by rw [hs0]; norm_num), hneed]
  rw [show List.range 3 = [0, 1, 2] from rfl]
  simp only [List.map_cons, List.map_nil, Option.map_some']
  rw [show ([roundAt cPool cEntropy 0, roundAt cPool cEntropy 1,
      roundAt cPool cEntropy 2] : List (List Clip)).flatten =
      roundAt cPool cEntropy 0 ++ (roundAt cPool cEntropy 1 ++
        (roundAt cPool cEntropy 2 ++ [])) from rfl]
  have happ : sumDur (roundAt cPool cEntropy 0 ++ (roundAt cPool cEntropy 1 ++
      (roundAt cPool cEntropy 2 ++ []))) = 234 := by
    unfold sumDur
    rw [List.map_append, List.sum_append, List.map_append, List.sum_append,
      List.map_append, List.sum_append]
    have e0 : (List.map Clip.dur (roundAt cPool cEntropy 0)).sum = 210 := hs0
    have e1 : (List.map Clip.dur (roundAt cPool cEntropy 1)).sum = 12 := hs1
    have e2 : (List.map Clip.dur (roundAt cPool cEntropy 2)).sum = 12 := by
      rw [hr2]; exact hs1
    rw [e0, e1, e2]
    norm_num
  rw [happ]

end VideoSynthesis
